import Mathlib

/-!
Shallow embedding of the segmentation and scroll-timing engine of
`src/src/views/TeleprompterView.tsx` (simple-teleprompter).

Strings are modelled by Lean `String` / `List Char`; JS floating-point
quantities (scroll offsets, heights, seconds) by `ℚ`; JS array indices by
`Int` (they may be negative or past the end).  JS `String.prototype.trim`
is modelled over the ASCII whitespace characters (space, tab, CR, LF),
which are the ones the teleprompter's wrap logic can produce at a chunk
boundary.
-/

/-- `MAX_CHARS_PER_LINE` (TeleprompterView.tsx line 14). -/
def MAX_CHARS_PER_LINE : Nat := 72

/-- JS `String.prototype.trim` acting on the character list of a string:
drop whitespace from the front, then from the back. -/
def trimList (l : List Char) : List Char :=
  ((l.dropWhile Char.isWhitespace).reverse.dropWhile Char.isWhitespace).reverse

/-- JS `slice.lastIndexOf(" ")` (line 26): index of the last space character,
`-1` when there is none. -/
def lastIndexOfSpace : List Char → Int
  | [] => -1
  | c :: cs =>
      let r := lastIndexOfSpace cs
      if 0 ≤ r then r + 1 else if c = ' ' then 0 else -1

/-- The `breakAt` computation of one iteration of the wrap loop in
`splitLongSegment` (lines 25-27): `lastSpace > 0 ? lastSpace + 1 :
MAX_CHARS_PER_LINE`, where `lastSpace` is the last space in the first
`MAX_CHARS_PER_LINE + 1` characters of the remainder. -/
def breakPos (rest : List Char) : Nat :=
  let lastSpace := lastIndexOfSpace (rest.take (MAX_CHARS_PER_LINE + 1))
  if 0 < lastSpace then lastSpace.toNat + 1 else MAX_CHARS_PER_LINE

/-- The `while (rest.length > 0)` loop of `splitLongSegment` (lines 20-30),
written with an explicit structural fuel so that it evaluates inside the
kernel; any fuel at least `rest.length` reaches the loop's fixpoint because
every iteration shortens the remainder (proved below). -/
def wrapLoopF : Nat → List Char → List String
  | _, [] => []
  | 0, _ :: _ => []
  | fuel + 1, c :: cs =>
      let rest := c :: cs
      if rest.length ≤ MAX_CHARS_PER_LINE then [String.mk rest]
      else
        String.mk (trimList (rest.take (breakPos rest))) ::
          wrapLoopF fuel (trimList (rest.drop (breakPos rest)))

/-- The wrap loop run with sufficient fuel. -/
def wrapLoop (rest : List Char) : List String := wrapLoopF rest.length rest

/-- `splitLongSegment` (lines 16-32): segments short enough pass through;
longer ones are trimmed and greedily wrapped. -/
def splitLongSegment (segment : String) : List String :=
  if segment.length ≤ MAX_CHARS_PER_LINE then [segment]
  else wrapLoop (trimList segment.data)

/-- JS `text.split(/\n/)` (line 40): split at every single newline; a
separator at either boundary yields an empty part there. -/
def splitEveryNl : List Char → List (List Char)
  | [] => [[]]
  | c :: cs =>
      if c = '\n' then [] :: splitEveryNl cs
      else
        match splitEveryNl cs with
        | [] => [[c]]
        | h :: t => (c :: h) :: t

/-- Drop the empty parts that sit strictly between two separators of a
`split` at single newlines, keeping the final part; composed after
`splitEveryNl` this realises splitting at maximal runs of newlines. -/
def collapseInterior : List (List Char) → List (List Char)
  | [] => []
  | [x] => [x]
  | x :: xs => if x = [] then collapseInterior xs else x :: collapseInterior xs

/-- JS `text.split(/[\n\n]+|\n/)` (line 35).  The character class `[\n\n]`
contains only `\n`, so the regex matches exactly the maximal nonempty runs
of newlines; splitting at maximal runs equals splitting at every newline
and dropping the run-interior empty parts. -/
def splitParagraphRegex (l : List Char) : List (List Char) :=
  match splitEveryNl l with
  | [] => []
  | x :: xs => x :: collapseInterior xs

/-- The `flatMap` at line 43 inserting one `"\n"` spacer between every
adjacent pair of parts (`i === 0 ? [s] : ["\n", s]`). -/
def withSpacersBetween (segments : List String) : List String :=
  match segments with
  | [] => []
  | s :: rest => s :: rest.flatMap (fun t => ["\n", t])

/-- `getSegments` (lines 34-45). -/
def getSegments (text : String) : List String :=
  let byParagraph := (splitParagraphRegex text.data).map String.mk
  let segments :=
    if 1 < byParagraph.length then byParagraph
    else
      let byLine := (splitEveryNl text.data).map String.mk
      if 1 < byLine.length then byLine else [text]
  let withEmptyBetween :=
    if 1 < segments.length then withSpacersBetween segments else segments
  withEmptyBetween.flatMap splitLongSegment

/-- `SPEED_MIN` (line 3). -/
def SPEED_MIN : ℚ := 1
/-- `SPEED_MAX` (line 4). -/
def SPEED_MAX : ℚ := 10
/-- `PX_PER_SEC_BASE` (line 5). -/
def PX_PER_SEC_BASE : ℚ := 5
/-- `PX_PER_SEC_PER_UNIT` (line 6). -/
def PX_PER_SEC_PER_UNIT : ℚ := 3
/-- `LINE_STEP_PX` (line 7). -/
def LINE_STEP_PX : ℚ := 28

/-- `getPxPerSecond` (lines 9-11). -/
def getPxPerSecond (speed : ℚ) : ℚ := PX_PER_SEC_BASE + speed * PX_PER_SEC_PER_UNIT

/-- The scroll controller's state: `scrollPosition`, `playing`,
`currentSpeed`, and the live geometry (`content.scrollHeight`,
`container.clientHeight`) the component reads fresh on every operation. -/
structure ScrollState where
  offset : ℚ
  playing : Bool
  speed : ℚ
  contentHeight : ℚ
  viewportHeight : ℚ

/-- `Math.max(0, content.scrollHeight - container.clientHeight)`, the bound
recomputed inline by `step` (line 136), `stepScroll` (line 221) and
`updateMaxScroll` (line 117). -/
def maxOffset (s : ScrollState) : ℚ := max 0 (s.contentHeight - s.viewportHeight)

/-- The per-frame auto-advance `step` (lines 133-146): `dt` is the elapsed
seconds since the previous frame; the new position is capped at the maximal
offset, and reaching it (while it is positive) stops playback. -/
def step (s : ScrollState) (dt : ℚ) : ScrollState :=
  let m := maxOffset s
  let next := s.offset + getPxPerSecond s.speed * dt
  if 0 < m ∧ m ≤ next then { s with offset := m, playing := false }
  else { s with offset := min next m }

/-- `stepScroll` (lines 217-226): manual line nudge, clamped to `[0, max]`. -/
def stepScroll (s : ScrollState) (direction : Int) : ScrollState :=
  let m := maxOffset s
  { s with offset := max 0 (min (s.offset + (direction : ℚ) * LINE_STEP_PX) m) }

/-- `handleReset` (lines 228-232). -/
def handleReset (s : ScrollState) : ScrollState := { s with offset := 0 }

/-- The scroll listener (lines 158-164): the DOM reports `container.scrollTop`
(which the browser keeps within `[0, scrollHeight - clientHeight]`) and the
component mirrors it into `scrollPosition`. -/
def syncScroll (s : ScrollState) (v : ℚ) : ScrollState := { s with offset := v }

/-- `setPlaying((p) => !p)` (lines 238, 392). -/
def togglePlay (s : ScrollState) : ScrollState := { s with playing := !s.playing }

/-- `setCurrentSpeed((s) => Math.min(SPEED_MAX, s + 1))` (line 271). -/
def speedUp (s : ScrollState) : ScrollState := { s with speed := min SPEED_MAX (s.speed + 1) }

/-- `setCurrentSpeed((s) => Math.max(SPEED_MIN, s - 1))` (line 276). -/
def speedDown (s : ScrollState) : ScrollState := { s with speed := max SPEED_MIN (s.speed - 1) }

/-- `setCurrentSpeed(payload.speed)` on config delivery (line 96); the host
contract (spec section 6) promises `speed ∈ [1, 10]`. -/
def setConfigSpeed (s : ScrollState) (v : ℚ) : ScrollState := { s with speed := v }

/-- A content/viewport geometry change.  The browser clamps the concrete DOM
`scrollTop` into the new valid range and emits a `scroll` event, which the
listener of lines 158-164 writes back into `scrollPosition`; the transition
therefore updates the geometry and clamps the offset into the new range. -/
def resizeTo (s : ScrollState) (ch vh : ℚ) : ScrollState :=
  let s' := { s with contentHeight := ch, viewportHeight := vh }
  { s' with offset := max 0 (min s.offset (maxOffset s')) }

/-- The refs written by `updateMaxScroll` (lines 112-118), together with the
`scrollPosition` state it could have touched but does not. -/
structure RefState where
  offset : ℚ
  maxScroll : ℚ
  viewportHeight : ℚ

/-- `updateMaxScroll` (lines 112-118): stores the viewport height and
`Math.max(0, content.scrollHeight - container.clientHeight)` into refs; it
performs no write to `scrollPosition`. -/
def updateMaxScroll (g : RefState) (contentH viewportH : ℚ) : RefState :=
  { g with viewportHeight := viewportH, maxScroll := max 0 (contentH - viewportH) }

/-- The two explicit directions accepted by `goToSegment`. -/
inductive Dir
  | next
  | prev

/-- `isEmpty` inside `goToSegment` (line 186): the segment at `i` trims to
the empty string (both the `"\n"` spacer and whitespace-only text qualify). -/
def isEmptyAt (segs : List String) (i : Nat) : Bool :=
  (trimList (segs.getD i "").data).isEmpty

/-- `Math.max(0, Math.min(index, segments.length - 1))` (line 185). -/
def clampIndex (segs : List String) (index : Int) : Int :=
  max 0 (min index ((segs.length : Int) - 1))

/-- The loop `while (i < segments.length && isEmpty(i)) i++` (lines 189 and
195); the fuel `k` is the distance from `i` to the end of the list. -/
def walkForwardAux (segs : List String) : Nat → Nat → Nat
  | 0, i => i
  | k + 1, i =>
      if i < segs.length ∧ isEmptyAt segs i = true then walkForwardAux segs k (i + 1) else i

/-- The forward walk started at `i`. -/
def walkForward (segs : List String) (i : Nat) : Nat :=
  walkForwardAux segs (segs.length - i) i

/-- The loop `while (i >= 0 && isEmpty(i)) i--` started at an in-range index
(lines 192 and 198): the result is the first index at or below the start
whose segment does not trim to empty, or `-1` when they all do. -/
def walkBackwardAux (segs : List String) : Nat → Int
  | 0 => if isEmptyAt segs 0 = true then -1 else 0
  | n + 1 => if isEmptyAt segs (n + 1) = true then walkBackwardAux segs n else ((n : Int) + 1)

/-- The backward walk from an arbitrary integer start.  A start at or past
`segments.length` evaluates `segments[i].trim()` on `undefined`, which in JS
raises a `TypeError`; that outcome is modelled by `none`. -/
def walkBackwardZ (segs : List String) (i : Int) : Option Int :=
  if i < 0 then some i
  else if i < (segs.length : Int) then some (walkBackwardAux segs i.toNat)
  else none

/-- The landing-index computation of `goToSegment` (lines 182-204): `none`
when the function returns without selecting an index (empty segment list) or
when the direction-less fallback faults on an out-of-range access. -/
def goToSegmentIndex (segs : List String) (index : Int) (direction : Option Dir) : Option Int :=
  if segs.length = 0 then none
  else
    let len : Int := segs.length
    let i0 : Int := clampIndex segs index
    if isEmptyAt segs i0.toNat = true then
      match direction with
      | some Dir.next => some (min (walkForward segs i0.toNat : Int) (len - 1))
      | some Dir.prev => (walkBackwardZ segs i0).map (fun j => max j 0)
      | none =>
          let j : Int := walkForward segs i0.toNat
          if j < len then some (min j (len - 1))
          else (walkBackwardZ segs index).map (fun j => max j 0)
    else some i0

/-- `goToSegment`'s effect on the scroll state (lines 182-213).  `geom i`
is `(el.offsetTop, el.offsetHeight)` of the rendered segment `i`, or `none`
when `segmentRefs.current[i]` is unset (spacer rows render a bare `div`
without a ref).  When an element is found, the target offset centring it in
the viewport is clamped and written. -/
def goToSegment (segs : List String) (geom : Nat → Option (ℚ × ℚ)) (index : Int)
    (direction : Option Dir) (s : ScrollState) : ScrollState :=
  match goToSegmentIndex segs index direction with
  | none => s
  | some i =>
      match geom i.toNat with
      | none => s
      | some (top, h) =>
          let targetScroll := top - s.viewportHeight / 2 + h / 2
          let clamped := max 0 (min targetScroll (s.contentHeight - s.viewportHeight))
          { s with offset := clamped }

/-- The states the component can reach: initial state (`scrollPosition 0`,
paused, speed 5, pre-layout geometry), closed under every operation the view
wires up.  The frame clock supplies nonnegative frame deltas
(`performance.now()` is monotone) and only runs while playing; the scroll
listener receives values the DOM keeps inside `[0, maxOffset]`; config
delivery respects the host contract `speed ∈ [1, 10]`. -/
inductive Reach : ScrollState → Prop
  | init : Reach ⟨0, false, 5, 0, 0⟩
  | frame (s : ScrollState) (dt : ℚ) : Reach s → 0 ≤ dt → s.playing = true → Reach (step s dt)
  | line (s : ScrollState) (d : Int) : Reach s → Reach (stepScroll s d)
  | seek (s : ScrollState) (segs : List String) (geom : Nat → Option (ℚ × ℚ))
      (index : Int) (direction : Option Dir) :
      Reach s → Reach (goToSegment segs geom index direction s)
  | rst (s : ScrollState) : Reach s → Reach (handleReset s)
  | sync (s : ScrollState) (v : ℚ) : Reach s → 0 ≤ v → v ≤ maxOffset s → Reach (syncScroll s v)
  | toggle (s : ScrollState) : Reach s → Reach (togglePlay s)
  | faster (s : ScrollState) : Reach s → Reach (speedUp s)
  | slower (s : ScrollState) : Reach s → Reach (speedDown s)
  | cfgSpeed (s : ScrollState) (v : ℚ) : Reach s → 1 ≤ v → v ≤ 10 → Reach (setConfigSpeed s v)
  | resized (s : ScrollState) (ch vh : ℚ) : Reach s → Reach (resizeTo s ch vh)

/-- The scroll state invariant: offset within `[0, maxOffset]` and speed
within `[SPEED_MIN, SPEED_MAX]`. -/
def StateInv (s : ScrollState) : Prop :=
  0 ≤ s.offset ∧ s.offset ≤ maxOffset s ∧ 1 ≤ s.speed ∧ s.speed ≤ 10

theorem trimList_length_le (l : List Char) : (trimList l).length ≤ l.length := by
  unfold trimList
  calc ((l.dropWhile Char.isWhitespace).reverse.dropWhile Char.isWhitespace).reverse.length
      = ((l.dropWhile Char.isWhitespace).reverse.dropWhile Char.isWhitespace).length :=
        List.length_reverse _
    _ ≤ (l.dropWhile Char.isWhitespace).reverse.length := (List.dropWhile_sublist _).length_le
    _ = (l.dropWhile Char.isWhitespace).length := List.length_reverse _
    _ ≤ l.length := (List.dropWhile_sublist _).length_le

theorem breakPos_pos (rest : List Char) : 1 ≤ breakPos rest := by
  simp only [breakPos]
  split
  · omega
  · norm_num [MAX_CHARS_PER_LINE]

theorem lastIndexOfSpace_lt_length (l : List Char) : lastIndexOfSpace l < (l.length : Int) := by
  induction l with
  | nil => norm_num [lastIndexOfSpace]
  | cons c cs ih =>
      simp only [lastIndexOfSpace, List.length_cons]
      split
      · push_cast; omega
      · split <;> push_cast <;> omega

theorem lastIndexOfSpace_getD (l : List Char) (h : 0 ≤ lastIndexOfSpace l) :
    l.getD (lastIndexOfSpace l).toNat 'x' = ' ' := by
  induction l with
  | nil => norm_num [lastIndexOfSpace] at h
  | cons c cs ih =>
      simp only [lastIndexOfSpace] at h ⊢
      by_cases h0 : 0 ≤ lastIndexOfSpace cs
      · rw [if_pos h0] at h ⊢
        have hn : (lastIndexOfSpace cs + 1).toNat = (lastIndexOfSpace cs).toNat + 1 := by omega
        rw [hn, List.getD_cons_succ]
        exact ih h0
      · rw [if_neg h0] at h ⊢
        by_cases hc : c = ' '
        · simp [hc]
        · rw [if_neg hc] at h; norm_num at h

theorem trimList_append_ws (l : List Char) (c : Char) (hc : c.isWhitespace = true) :
    trimList (l ++ [c]) = trimList l := by
  unfold trimList
  rw [List.dropWhile_append]
  split
  · next h =>
      rw [List.isEmpty_iff] at h
      rw [h]
      simp [List.dropWhile, hc]
  · rw [List.reverse_append]
    simp [List.dropWhile, hc]

theorem chunk_length_le (rest : List Char) (h : MAX_CHARS_PER_LINE < rest.length) :
    (trimList (rest.take (breakPos rest))).length ≤ MAX_CHARS_PER_LINE := by
  have hM : MAX_CHARS_PER_LINE = 72 := rfl
  have hlt := lastIndexOfSpace_lt_length (rest.take (MAX_CHARS_PER_LINE + 1))
  have hlen : (rest.take (MAX_CHARS_PER_LINE + 1)).length = 73 := by
    rw [List.length_take]; omega
  simp only [breakPos]
  split
  · next hpos =>
      by_cases hle : (lastIndexOfSpace (rest.take (MAX_CHARS_PER_LINE + 1))).toNat + 1 ≤ 72
      · calc (trimList (rest.take ((lastIndexOfSpace (rest.take (MAX_CHARS_PER_LINE + 1))).toNat + 1))).length
            ≤ (rest.take ((lastIndexOfSpace (rest.take (MAX_CHARS_PER_LINE + 1))).toNat + 1)).length :=
              trimList_length_le _
          _ ≤ (lastIndexOfSpace (rest.take (MAX_CHARS_PER_LINE + 1))).toNat + 1 :=
              List.length_take_le _ _
          _ ≤ MAX_CHARS_PER_LINE := by omega
      · have h72 : lastIndexOfSpace (rest.take (MAX_CHARS_PER_LINE + 1)) = 72 := by
          rw [hlen] at hlt; omega
        have hbreak : (lastIndexOfSpace (rest.take (MAX_CHARS_PER_LINE + 1))).toNat + 1 = 73 := by
          omega
        rw [hbreak]
        have h73 : MAX_CHARS_PER_LINE + 1 = 73 := by norm_num [hM]
        rw [h73] at hlen
        have hgetD : (rest.take 73).getD 72 'x' = ' ' := by
          have hg := lastIndexOfSpace_getD (rest.take (MAX_CHARS_PER_LINE + 1)) (by omega)
          rw [h72] at hg
          rw [h73] at hg
          simpa using hg
        have h72lt : 72 < (rest.take 73).length := by omega
        have helem : (rest.take 73)[72] = ' ' := by
          have := List.getD_eq_getElem (rest.take 73) 'x' h72lt
          rw [this] at hgetD
          exact hgetD
        have hsome : rest[72]? = some ' ' := by
          have h1 : (rest.take 73)[72]? = some ' ' := by
            rw [List.getElem?_eq_getElem h72lt, helem]
          rw [List.getElem?_take] at h1
          simpa using h1
        have hsplit : rest.take 73 = rest.take 72 ++ [' '] := by
          have := List.take_succ (l := rest) (n := 72)
          rw [hsome] at this
          simpa using this
        rw [hsplit, trimList_append_ws _ _ (by decide)]
        calc (trimList (rest.take 72)).length
            ≤ (rest.take 72).length := trimList_length_le _
          _ ≤ 72 := List.length_take_le _ _
          _ ≤ MAX_CHARS_PER_LINE := by omega
  · calc (trimList (rest.take MAX_CHARS_PER_LINE)).length
        ≤ (rest.take MAX_CHARS_PER_LINE).length := trimList_length_le _
      _ ≤ MAX_CHARS_PER_LINE := List.length_take_le _ _

theorem wrapLoopF_irrel : ∀ f1 f2 : Nat, ∀ rest : List Char,
    rest.length ≤ f1 → rest.length ≤ f2 → wrapLoopF f1 rest = wrapLoopF f2 rest := by
  intro f1
  induction f1 with
  | zero =>
      intro f2 rest h1 _
      have hr : rest = [] := List.length_eq_zero.mp (Nat.le_zero.mp h1)
      subst hr
      cases f2 <;> rfl
  | succ f ih =>
      intro f2 rest h1 h2
      match rest with
      | [] => cases f2 <;> rfl
      | c :: cs =>
          match f2 with
          | 0 => simp at h2
          | g + 1 =>
              simp only [wrapLoopF]
              by_cases hle : (c :: cs).length ≤ MAX_CHARS_PER_LINE
              · rw [if_pos hle, if_pos hle]
              · rw [if_neg hle, if_neg hle]
                congr 1
                have hbp := breakPos_pos (c :: cs)
                have htr := trimList_length_le ((c :: cs).drop (breakPos (c :: cs)))
                have hd := List.length_drop (breakPos (c :: cs)) (c :: cs)
                exact ih g _ (by omega) (by omega)

theorem wrapLoopF_le : ∀ (fuel : Nat) (rest : List Char) (s : String),
    s ∈ wrapLoopF fuel rest → s.length ≤ MAX_CHARS_PER_LINE := by
  intro fuel
  induction fuel with
  | zero =>
      intro rest s hs
      cases rest <;> simp [wrapLoopF] at hs
  | succ f ih =>
      intro rest s hs
      match rest with
      | [] => simp [wrapLoopF] at hs
      | c :: cs =>
          simp only [wrapLoopF] at hs
          by_cases hle : (c :: cs).length ≤ MAX_CHARS_PER_LINE
          · rw [if_pos hle] at hs
            rw [List.mem_singleton] at hs
            subst hs
            exact hle
          · rw [if_neg hle] at hs
            rcases List.mem_cons.mp hs with heq | hmem
            · subst heq
              exact chunk_length_le (c :: cs) (by omega)
            · exact ih _ _ hmem

theorem splitLongSegment_le (t s : String) (h : s ∈ splitLongSegment t) :
    s.length ≤ MAX_CHARS_PER_LINE := by
  unfold splitLongSegment at h
  split at h
  · next hle =>
      rw [List.mem_singleton] at h
      subst h
      exact hle
  · exact wrapLoopF_le _ _ _ h

/-- Claim C3: every segment produced by `getSegments` — in particular every
non-spacer text segment, including every chunk produced by the greedy wrap
of an over-long part — has length at most `MAX_CHARS_PER_LINE` (72). -/
theorem getSegments_length_le (text : String) (s : String) (h : s ∈ getSegments text) :
    s.length ≤ MAX_CHARS_PER_LINE := by
  simp only [getSegments] at h
  rw [List.mem_flatMap] at h
  obtain ⟨t, _, hst⟩ := h
  exact splitLongSegment_le t s hst

/-- Witness for C3 at a concrete input. -/
theorem getSegments_length_le_witness :
    ("hi" : String) ∈ getSegments "hi" ∧ ("hi" : String).length ≤ MAX_CHARS_PER_LINE :=
  ⟨by decide, getSegments_length_le "hi" "hi" (by decide)⟩

/-- Claim C10: the greedy wrap loop of `splitLongSegment` terminates.  In
every iteration on a remainder longer than `MAX_CHARS_PER_LINE` the chosen
break position is at least 1, so the (trimmed) remaining text strictly
shortens; consequently `rest.length` fuel already reaches the loop's
fixpoint and any larger fuel gives the same finite chunk list. -/
theorem wrap_loop_terminates (rest : List Char) (h : MAX_CHARS_PER_LINE < rest.length) :
    1 ≤ breakPos rest ∧
    (trimList (rest.drop (breakPos rest))).length < rest.length ∧
    (∀ fuel : Nat, rest.length ≤ fuel → wrapLoopF fuel rest = wrapLoop rest) := by
  refine ⟨breakPos_pos rest, ?_, ?_⟩
  · have h1 := trimList_length_le (rest.drop (breakPos rest))
    have h2 := List.length_drop (breakPos rest) rest
    have h3 := breakPos_pos rest
    omega
  · intro fuel hf
    exact wrapLoopF_irrel fuel rest.length rest hf le_rfl

/-- Witness for C10 at a concrete 73-character remainder. -/
theorem wrap_loop_terminates_witness :
    MAX_CHARS_PER_LINE < (List.replicate 73 'a').length ∧
    1 ≤ breakPos (List.replicate 73 'a') :=
  ⟨by decide, (wrap_loop_terminates (List.replicate 73 'a') (by decide)).1⟩

/-- Claim C1 (code bug): evaluation of `getSegments` at the failing input
`"a\nb\n\nc"`.  Because the regex character class `[\n\n]` equals `[\n]`,
the split at line 35 breaks at every newline run, so the single newline
between `a` and `b` starts a new segment even though a paragraph boundary
(`\n\n`) exists elsewhere in the input; the claimed behaviour would keep
`"a\nb"` together and produce `["a\nb", "\n", "c"]`. -/
theorem getSegments_splits_single_newline_inside_paragraph :
    getSegments "a\nb\n\nc" = ["a", "\n", "b", "\n", "c"] ∧
    getSegments "a\nb\n\nc" ≠ ["a\nb", "\n", "c"] := by
  constructor
  · decide
  · decide

/-- Counterexample for claim C5 as stated: `updateMaxScroll` recomputes the
max-scroll ref but does not clamp the current offset into the new range —
from `offset = 50` and new geometry `contentHeight = viewportHeight = 10`
the new `maxScroll` is `0` while `offset` stays `50`. -/
theorem updateMaxScroll_does_not_clamp_offset :
    (updateMaxScroll ⟨50, 90, 10⟩ 10 10).offset = 50 ∧
    (updateMaxScroll ⟨50, 90, 10⟩ 10 10).maxScroll = 0 ∧
    ¬ (updateMaxScroll ⟨50, 90, 10⟩ 10 10).offset ≤ (updateMaxScroll ⟨50, 90, 10⟩ 10 10).maxScroll := by
  refine ⟨rfl, ?_, ?_⟩
  · show max 0 ((10 : ℚ) - 10) = 0
    norm_num
  · show ¬ (50 : ℚ) ≤ max 0 ((10 : ℚ) - 10)
    norm_num

/-- Claim C5 (amended): `updateMaxScroll(contentHeight, viewportHeight)`
sets `maxScroll = max(0, contentHeight - viewportHeight)` and stores the
viewport height, leaves the current offset unchanged (it performs no
clamping), and is idempotent: calling it twice with the same inputs yields
the same state as calling it once. -/
theorem updateMaxScroll_sets_max_and_is_idempotent (g : RefState) (ch vh : ℚ) :
    (updateMaxScroll g ch vh).maxScroll = max 0 (ch - vh) ∧
    (updateMaxScroll g ch vh).offset = g.offset ∧
    (updateMaxScroll g ch vh).viewportHeight = vh ∧
    updateMaxScroll (updateMaxScroll g ch vh) ch vh = updateMaxScroll g ch vh :=
  ⟨rfl, rfl, rfl, rfl⟩

theorem step_offset_eq (s : ScrollState) (dt : ℚ) :
    (step s dt).offset = min (s.offset + getPxPerSecond s.speed * dt) (maxOffset s) := by
  simp only [step]
  split
  · next h => exact (min_eq_right h.2).symm
  · rfl

theorem step_speed_eq (s : ScrollState) (dt : ℚ) : (step s dt).speed = s.speed := by
  simp only [step]
  split <;> rfl

theorem maxOffset_step (s : ScrollState) (dt : ℚ) : maxOffset (step s dt) = maxOffset s := by
  simp only [step]
  split <;> rfl

theorem goToSegment_speed_eq (segs : List String) (geom : Nat → Option (ℚ × ℚ)) (index : Int)
    (direction : Option Dir) (s : ScrollState) :
    (goToSegment segs geom index direction s).speed = s.speed := by
  unfold goToSegment
  split
  · rfl
  · split
    · rfl
    · rfl

theorem maxOffset_goToSegment (segs : List String) (geom : Nat → Option (ℚ × ℚ)) (index : Int)
    (direction : Option Dir) (s : ScrollState) :
    maxOffset (goToSegment segs geom index direction s) = maxOffset s := by
  unfold goToSegment
  split
  · rfl
  · split
    · rfl
    · rfl

theorem getPxPerSecond_nonneg (speed : ℚ) (h : 1 ≤ speed) : 0 ≤ getPxPerSecond speed := by
  unfold getPxPerSecond PX_PER_SEC_BASE PX_PER_SEC_PER_UNIT
  linarith

theorem step_offset_bounds (s : ScrollState) (dt : ℚ) (h0 : 0 ≤ s.offset) (hsp : 1 ≤ s.speed)
    (hdt : 0 ≤ dt) : 0 ≤ (step s dt).offset ∧ (step s dt).offset ≤ maxOffset s := by
  rw [step_offset_eq]
  constructor
  · exact le_min (add_nonneg h0 (mul_nonneg (getPxPerSecond_nonneg s.speed hsp) hdt))
      (le_max_left _ _)
  · exact min_le_right _ _

theorem stepScroll_offset_bounds (s : ScrollState) (d : Int) :
    0 ≤ (stepScroll s d).offset ∧ (stepScroll s d).offset ≤ maxOffset s := by
  constructor
  · exact le_max_left _ _
  · exact max_le (le_max_left _ _) (min_le_right _ _)

theorem goToSegment_offset_bounds (segs : List String) (geom : Nat → Option (ℚ × ℚ))
    (index : Int) (direction : Option Dir) (s : ScrollState)
    (h0 : 0 ≤ s.offset) (h1 : s.offset ≤ maxOffset s) :
    0 ≤ (goToSegment segs geom index direction s).offset ∧
    (goToSegment segs geom index direction s).offset ≤ maxOffset s := by
  unfold goToSegment
  split
  · exact ⟨h0, h1⟩
  · split
    · exact ⟨h0, h1⟩
    · refine ⟨le_max_left _ _, ?_⟩
      exact max_le (le_max_left _ _) (le_trans (min_le_right _ _) (le_max_right _ _))

theorem resizeTo_offset_bounds (s : ScrollState) (ch vh : ℚ) :
    0 ≤ (resizeTo s ch vh).offset ∧ (resizeTo s ch vh).offset ≤ maxOffset (resizeTo s ch vh) := by
  constructor
  · exact le_max_left _ _
  · exact max_le (le_max_left _ _) (min_le_right _ _)

/-- Every reachable state satisfies the scroll-state invariant. -/
theorem reach_inv (s : ScrollState) (h : Reach s) : StateInv s := by
  induction h with
  | init =>
      refine ⟨le_refl 0, le_max_left _ _, by norm_num, by norm_num⟩
  | frame s dt hr hdt hp ih =>
      obtain ⟨h0, h1, h2, h3⟩ := ih
      obtain ⟨hb0, hb1⟩ := step_offset_bounds s dt h0 h2 hdt
      exact ⟨hb0, by rw [maxOffset_step]; exact hb1, by rw [step_speed_eq]; exact h2,
        by rw [step_speed_eq]; exact h3⟩
  | line s d hr ih =>
      obtain ⟨h0, h1, h2, h3⟩ := ih
      obtain ⟨hb0, hb1⟩ := stepScroll_offset_bounds s d
      exact ⟨hb0, hb1, h2, h3⟩
  | seek s segs geom index direction hr ih =>
      obtain ⟨h0, h1, h2, h3⟩ := ih
      obtain ⟨hb0, hb1⟩ := goToSegment_offset_bounds segs geom index direction s h0 h1
      refine ⟨hb0, ?_, ?_, ?_⟩
      · rw [maxOffset_goToSegment]; exact hb1
      · rw [goToSegment_speed_eq]; exact h2
      · rw [goToSegment_speed_eq]; exact h3
  | rst s hr ih =>
      obtain ⟨h0, h1, h2, h3⟩ := ih
      exact ⟨le_refl 0, le_max_left _ _, h2, h3⟩
  | sync s v hr hv0 hv1 ih =>
      obtain ⟨h0, h1, h2, h3⟩ := ih
      exact ⟨hv0, hv1, h2, h3⟩
  | toggle s hr ih => exact ih
  | faster s hr ih =>
      obtain ⟨h0, h1, h2, h3⟩ := ih
      refine ⟨h0, h1, ?_, min_le_left _ _⟩
      · show 1 ≤ min SPEED_MAX (s.speed + 1)
        refine le_min ?_ (by linarith)
        norm_num [SPEED_MAX]
  | slower s hr ih =>
      obtain ⟨h0, h1, h2, h3⟩ := ih
      refine ⟨h0, h1, le_max_left _ _, ?_⟩
      · show max SPEED_MIN (s.speed - 1) ≤ 10
        refine max_le ?_ (by linarith)
        norm_num [SPEED_MIN]
  | cfgSpeed s v hr hv1 hv2 ih =>
      obtain ⟨h0, h1, h2, h3⟩ := ih
      exact ⟨h0, h1, hv1, hv2⟩
  | resized s ch vh hr ih =>
      obtain ⟨h0, h1, h2, h3⟩ := ih
      obtain ⟨hb0, hb1⟩ := resizeTo_offset_bounds s ch vh
      exact ⟨hb0, hb1, h2, h3⟩

/-- Claim C2: for every reachable scroll state, after each of the
offset-mutating operations — frame auto-advance (`step`), manual line step
(`stepScroll`), segment seek (`goToSegment`), `handleReset`, and the scroll
sync — the invariant `0 ≤ offset ≤ maxOffset` holds, where the frame delta
is nonnegative and the synced value is the DOM's in-range `scrollTop`. -/
theorem scrollState_invariant_after_operations (s : ScrollState) (dt v : ℚ) (d : Int)
    (segs : List String) (geom : Nat → Option (ℚ × ℚ)) (index : Int) (direction : Option Dir)
    (h : Reach s) (hdt : 0 ≤ dt) (hv0 : 0 ≤ v) (hv1 : v ≤ maxOffset s) :
    (0 ≤ (step s dt).offset ∧ (step s dt).offset ≤ maxOffset (step s dt)) ∧
    (0 ≤ (stepScroll s d).offset ∧ (stepScroll s d).offset ≤ maxOffset (stepScroll s d)) ∧
    (0 ≤ (goToSegment segs geom index direction s).offset ∧
      (goToSegment segs geom index direction s).offset ≤
        maxOffset (goToSegment segs geom index direction s)) ∧
    (0 ≤ (handleReset s).offset ∧ (handleReset s).offset ≤ maxOffset (handleReset s)) ∧
    (0 ≤ (syncScroll s v).offset ∧ (syncScroll s v).offset ≤ maxOffset (syncScroll s v)) := by
  obtain ⟨h0, h1, h2, h3⟩ := reach_inv s h
  refine ⟨?_, ?_, ?_, ?_, ?_⟩
  · obtain ⟨hb0, hb1⟩ := step_offset_bounds s dt h0 h2 hdt
    exact ⟨hb0, by rw [maxOffset_step]; exact hb1⟩
  · exact stepScroll_offset_bounds s d
  · obtain ⟨hb0, hb1⟩ := goToSegment_offset_bounds segs geom index direction s h0 h1
    exact ⟨hb0, by rw [maxOffset_goToSegment]; exact hb1⟩
  · exact ⟨le_refl 0, le_max_left _ _⟩
  · exact ⟨hv0, hv1⟩

/-- Witness for C2 at the initial state. -/
theorem scrollState_invariant_after_operations_witness :
    Reach ⟨0, false, 5, 0, 0⟩ ∧ (0 : ℚ) ≤ 1 ∧
    (0 ≤ (step ⟨0, false, 5, 0, 0⟩ 1).offset ∧
      (step ⟨0, false, 5, 0, 0⟩ 1).offset ≤ maxOffset (step ⟨0, false, 5, 0, 0⟩ 1)) :=
  ⟨Reach.init, by norm_num,
    (scrollState_invariant_after_operations ⟨0, false, 5, 0, 0⟩ 1 0 1 [] (fun _ => none) 0 none
      Reach.init (by norm_num) (le_refl 0) (le_max_left _ _)).1⟩

/-- Claim C4: whenever a frame advance performed while playing produces a
new offset equal to `maxOffset` and `maxOffset > 0`, that same call flips
`playing` to `false`. -/
theorem step_reaching_max_pauses (s : ScrollState) (dt : ℚ) (hp : s.playing = true)
    (hm : 0 < maxOffset s) (ho : (step s dt).offset = maxOffset s) :
    (step s dt).playing = false := by
  by_cases hc : 0 < maxOffset s ∧ maxOffset s ≤ s.offset + getPxPerSecond s.speed * dt
  · simp only [step, if_pos hc]
  · exfalso
    rw [step_offset_eq] at ho
    have hle : maxOffset s ≤ s.offset + getPxPerSecond s.speed * dt := min_eq_right_iff.mp ho
    exact hc ⟨hm, hle⟩

/-- Witness for C4: from offset 0, speed 5, `maxOffset = 10`, a one-second
frame overshoots to candidate 20, lands exactly on 10, and pauses. -/
theorem step_reaching_max_pauses_witness :
    (⟨0, true, 5, 10, 0⟩ : ScrollState).playing = true ∧
    0 < maxOffset ⟨0, true, 5, 10, 0⟩ ∧
    (step ⟨0, true, 5, 10, 0⟩ 1).offset = maxOffset ⟨0, true, 5, 10, 0⟩ ∧
    (step ⟨0, true, 5, 10, 0⟩ 1).playing = false := by
  have hm : 0 < maxOffset (⟨0, true, 5, 10, 0⟩ : ScrollState) := by
    norm_num [maxOffset, max_def]
  have ho : (step (⟨0, true, 5, 10, 0⟩ : ScrollState) 1).offset =
      maxOffset ⟨0, true, 5, 10, 0⟩ := by
    norm_num [step, maxOffset, getPxPerSecond, PX_PER_SEC_BASE, PX_PER_SEC_PER_UNIT,
      max_def, min_def]
  exact ⟨rfl, hm, ho, step_reaching_max_pauses ⟨0, true, 5, 10, 0⟩ 1 rfl hm ho⟩

/-- Claim C7: the frame advance always sets
`offset = min(offset + (BASE + speed·PER_UNIT)·dt, maxOffset)`; with
`speed = 5` the scroll rate is `20` px/s, and a one-second advance from
offset 0 with `maxOffset = 100` yields offset 20. -/
theorem step_offset_formula_and_example (s : ScrollState) (dt : ℚ) :
    (step s dt).offset = min (s.offset + getPxPerSecond s.speed * dt) (maxOffset s) ∧
    getPxPerSecond 5 = 20 ∧
    (step ⟨0, true, 5, 100, 0⟩ 1).offset = 20 := by
  refine ⟨step_offset_eq s dt, ?_, ?_⟩
  · norm_num [getPxPerSecond, PX_PER_SEC_BASE, PX_PER_SEC_PER_UNIT]
  · norm_num [step, maxOffset, getPxPerSecond, PX_PER_SEC_BASE, PX_PER_SEC_PER_UNIT,
      max_def, min_def]

/-- Claim C8: a frame advance with `deltaSeconds = 0` leaves the offset of
any scroll state satisfying the data-model invariant `0 ≤ offset ≤ maxOffset`
unchanged. -/
theorem step_zero_delta_fixes_offset (s : ScrollState) (h0 : 0 ≤ s.offset)
    (h1 : s.offset ≤ maxOffset s) : (step s 0).offset = s.offset := by
  rw [step_offset_eq, mul_zero, add_zero]
  exact min_eq_left h1

/-- Witness for C8 at a mid-scroll state. -/
theorem step_zero_delta_fixes_offset_witness :
    (0 : ℚ) ≤ (⟨3, false, 5, 10, 2⟩ : ScrollState).offset ∧
    (⟨3, false, 5, 10, 2⟩ : ScrollState).offset ≤ maxOffset ⟨3, false, 5, 10, 2⟩ ∧
    (step ⟨3, false, 5, 10, 2⟩ 0).offset = (⟨3, false, 5, 10, 2⟩ : ScrollState).offset := by
  have h0 : (0 : ℚ) ≤ (⟨3, false, 5, 10, 2⟩ : ScrollState).offset := by norm_num
  have h1 : (⟨3, false, 5, 10, 2⟩ : ScrollState).offset ≤ maxOffset ⟨3, false, 5, 10, 2⟩ := by
    norm_num [maxOffset, max_def]
  exact ⟨h0, h1, step_zero_delta_fixes_offset ⟨3, false, 5, 10, 2⟩ h0 h1⟩

/-- Claim C9 (amended): under degenerate geometry (`maxOffset = 0`) and from
offset 0, every offset-mutating operation — frame advance, manual line step
in either direction, and segment seek — leaves the offset at 0.  The
original claim's "no error is raised" conjunct is dropped: the
direction-less `goToSegment` fallback re-reads `segments[index]` at the
unclamped original index and can throw a `TypeError` there (the fault the
embedding models as `none`; see `degenerate_goToSegment_fallback_raises`);
the offset is unchanged, hence still 0, even on that faulting path. -/
theorem degenerate_geometry_no_op (s : ScrollState) (dt : ℚ) (d : Int)
    (segs : List String) (geom : Nat → Option (ℚ × ℚ)) (index : Int) (direction : Option Dir)
    (hdeg : maxOffset s = 0) (h0 : s.offset = 0) (hsp : 1 ≤ s.speed) (hdt : 0 ≤ dt) :
    (step s dt).offset = 0 ∧ (stepScroll s d).offset = 0 ∧
    (goToSegment segs geom index direction s).offset = 0 := by
  refine ⟨?_, ?_, ?_⟩
  · rw [step_offset_eq, hdeg, h0, zero_add]
    exact min_eq_right (mul_nonneg (getPxPerSecond_nonneg s.speed hsp) hdt)
  · show max 0 (min (s.offset + (d : ℚ) * LINE_STEP_PX) (maxOffset s)) = 0
    rw [hdeg]
    exact max_eq_left (min_le_right _ _)
  · have hsub : s.contentHeight - s.viewportHeight ≤ 0 := by
      by_contra hpos
      push_neg at hpos
      rw [maxOffset, max_eq_right (le_of_lt hpos)] at hdeg
      exact absurd hdeg (ne_of_gt hpos)
    unfold goToSegment
    split
    · exact h0
    · split
      · exact h0
      · show max 0 (min _ (s.contentHeight - s.viewportHeight)) = 0
        exact max_eq_left (le_trans (min_le_right _ _) hsub)

/-- Witness for C9 at a zero-geometry state. -/
theorem degenerate_geometry_no_op_witness :
    maxOffset ⟨0, false, 5, 0, 0⟩ = 0 ∧
    (step ⟨0, false, 5, 0, 0⟩ 1).offset = 0 ∧
    (stepScroll ⟨0, false, 5, 0, 0⟩ 1).offset = 0 ∧
    (goToSegment [] (fun _ => none) 0 none ⟨0, false, 5, 0, 0⟩).offset = 0 := by
  have hdeg : maxOffset (⟨0, false, 5, 0, 0⟩ : ScrollState) = 0 := by
    norm_num [maxOffset, max_def]
  obtain ⟨ha, hb, hc⟩ := degenerate_geometry_no_op ⟨0, false, 5, 0, 0⟩ 1 1 [] (fun _ => none)
    0 none hdeg rfl (by norm_num) (by norm_num)
  exact ⟨hdeg, ha, hb, hc⟩

theorem clampIndex_bounds (segs : List String) (index : Int) (h : segs ≠ []) :
    0 ≤ clampIndex segs index ∧ clampIndex segs index ≤ (segs.length : Int) - 1 := by
  have hlen : 0 < segs.length := List.length_pos.mpr h
  constructor
  · exact le_max_left _ _
  · refine max_le ?_ (min_le_right _ _)
    omega

theorem walkForwardAux_spec (segs : List String) :
    ∀ k i : Nat, i ≤ segs.length → segs.length ≤ k + i →
      i ≤ walkForwardAux segs k i ∧
      walkForwardAux segs k i ≤ segs.length ∧
      (∀ m : Nat, i ≤ m → m < walkForwardAux segs k i → isEmptyAt segs m = true) ∧
      (walkForwardAux segs k i < segs.length → isEmptyAt segs (walkForwardAux segs k i) = false) := by
  intro k
  induction k with
  | zero =>
      intro i h1 h2
      simp only [walkForwardAux]
      exact ⟨le_rfl, h1, fun m hm1 hm2 => absurd hm2 (by omega), fun hlt => absurd hlt (by omega)⟩
  | succ k ih =>
      intro i h1 h2
      by_cases hc : i < segs.length ∧ isEmptyAt segs i = true
      · rw [show walkForwardAux segs (k + 1) i = walkForwardAux segs k (i + 1) from by
          simp only [walkForwardAux, if_pos hc]]
        obtain ⟨ha, hb, hall, hd⟩ := ih (i + 1) (by omega) (by omega)
        refine ⟨by omega, hb, ?_, hd⟩
        intro m hm1 hm2
        by_cases hmi : m = i
        · rw [hmi]; exact hc.2
        · exact hall m (by omega) hm2
      · rw [show walkForwardAux segs (k + 1) i = i from by
          simp only [walkForwardAux, if_neg hc]]
        refine ⟨le_rfl, h1, fun m hm1 hm2 => absurd hm2 (by omega), ?_⟩
        intro hlt
        cases hb : isEmptyAt segs i with
        | false => rfl
        | true => exact absurd ⟨hlt, hb⟩ hc

theorem walkForward_spec (segs : List String) (i : Nat) (h : i ≤ segs.length) :
    i ≤ walkForward segs i ∧
    walkForward segs i ≤ segs.length ∧
    (∀ m : Nat, i ≤ m → m < walkForward segs i → isEmptyAt segs m = true) ∧
    (walkForward segs i < segs.length → isEmptyAt segs (walkForward segs i) = false) := by
  unfold walkForward
  exact walkForwardAux_spec segs (segs.length - i) i h (by omega)

theorem walkForward_eq_of_not_empty (segs : List String) (i : Nat) (hi : i < segs.length)
    (hne : isEmptyAt segs i = false) : walkForward segs i = i := by
  unfold walkForward
  rw [show segs.length - i = (segs.length - i - 1) + 1 from by omega]
  simp only [walkForwardAux]
  rw [if_neg (by simp [hne])]

theorem walkBackwardAux_spec (segs : List String) :
    ∀ i : Nat, i < segs.length →
      walkBackwardAux segs i ≤ (i : Int) ∧
      -1 ≤ walkBackwardAux segs i ∧
      (∀ m : Nat, m ≤ i → walkBackwardAux segs i < (m : Int) → isEmptyAt segs m = true) ∧
      (0 ≤ walkBackwardAux segs i → isEmptyAt segs (walkBackwardAux segs i).toNat = false) := by
  intro i
  induction i with
  | zero =>
      intro h
      cases hb : isEmptyAt segs 0 with
      | true =>
          rw [show walkBackwardAux segs 0 = -1 from by simp only [walkBackwardAux, if_pos hb]]
          refine ⟨by norm_num, le_rfl, ?_, by norm_num⟩
          intro m hm _
          rw [show m = 0 from by omega]
          exact hb
      | false =>
          rw [show walkBackwardAux segs 0 = 0 from by simp [walkBackwardAux, hb]]
          refine ⟨le_rfl, by norm_num, ?_, ?_⟩
          · intro m hm hlt
            exact absurd hlt (by omega)
          · intro _
            simpa using hb
  | succ n ih =>
      intro h
      cases hb : isEmptyAt segs (n + 1) with
      | true =>
          rw [show walkBackwardAux segs (n + 1) = walkBackwardAux segs n from by
            simp only [walkBackwardAux, if_pos hb]]
          obtain ⟨ha, hb2, hall, hd⟩ := ih (by omega)
          refine ⟨by omega, hb2, ?_, hd⟩
          intro m hm hlt
          by_cases hmn : m = n + 1
          · rw [hmn]; exact hb
          · exact hall m (by omega) hlt
      | false =>
          rw [show walkBackwardAux segs (n + 1) = ((n : Int) + 1) from by
            simp [walkBackwardAux, hb]]
          refine ⟨by omega, by omega, ?_, ?_⟩
          · intro m hm hlt
            exact absurd hlt (by omega)
          · intro _
            rw [show ((n : Int) + 1).toNat = n + 1 from by omega]
            exact hb

theorem goToSegmentIndex_eq_of_not_empty (segs : List String) (index : Int)
    (direction : Option Dir) (h : ¬ segs.length = 0)
    (he : isEmptyAt segs (clampIndex segs index).toNat = false) :
    goToSegmentIndex segs index direction = some (clampIndex segs index) := by
  simp [goToSegmentIndex, h, he]

theorem goToSegmentIndex_next_of_empty (segs : List String) (index : Int)
    (h : ¬ segs.length = 0) (he : isEmptyAt segs (clampIndex segs index).toNat = true) :
    goToSegmentIndex segs index (some Dir.next) =
      some (min (walkForward segs (clampIndex segs index).toNat : Int) ((segs.length : Int) - 1)) := by
  simp [goToSegmentIndex, h, he]

theorem goToSegmentIndex_prev_of_empty (segs : List String) (index : Int)
    (h : ¬ segs.length = 0) (he : isEmptyAt segs (clampIndex segs index).toNat = true) :
    goToSegmentIndex segs index (some Dir.prev) =
      (walkBackwardZ segs (clampIndex segs index)).map (fun j => max j 0) := by
  simp [goToSegmentIndex, h, he]

theorem goToSegmentIndex_none_of_empty (segs : List String) (index : Int)
    (h : ¬ segs.length = 0) (he : isEmptyAt segs (clampIndex segs index).toNat = true) :
    goToSegmentIndex segs index none =
      (if (walkForward segs (clampIndex segs index).toNat : Int) < (segs.length : Int) then
        some (min (walkForward segs (clampIndex segs index).toNat : Int) ((segs.length : Int) - 1))
      else (walkBackwardZ segs index).map (fun j => max j 0)) := by
  simp [goToSegmentIndex, h, he]

/-- Claim C6: `goToSegment` never lands on a skip-target segment (spacer or
text trimming to empty) when a non-skip segment exists in the searched
direction.  With `"next"` it walks forward from the clamped index (landing
on the first non-skip one when any exists at or after it), with `"prev"`
backward, and with no direction it walks forward first and, exactly when
the forward walk runs off the end of the list, backward starting from the
original (pre-walk, unclamped) index; a direction-less call that lands on a
skip target can only happen when every segment is a skip target. -/
theorem goToSegment_skip_target_avoidance (segs : List String) (index : Int) (hne : segs ≠ []) :
    (∃ j : Int, goToSegmentIndex segs index (some Dir.next) = some j) ∧
    (∀ j : Int, goToSegmentIndex segs index (some Dir.next) = some j →
      clampIndex segs index ≤ j ∧ j < (segs.length : Int) ∧
      (∀ m : Nat, clampIndex segs index ≤ (m : Int) → (m : Int) < j → isEmptyAt segs m = true) ∧
      ((∃ k : Nat, clampIndex segs index ≤ (k : Int) ∧ k < segs.length ∧
          isEmptyAt segs k = false) →
        isEmptyAt segs j.toNat = false)) ∧
    (∃ j : Int, goToSegmentIndex segs index (some Dir.prev) = some j) ∧
    (∀ j : Int, goToSegmentIndex segs index (some Dir.prev) = some j →
      0 ≤ j ∧ j ≤ clampIndex segs index ∧
      (∀ m : Nat, (m : Int) ≤ clampIndex segs index → j < (m : Int) → isEmptyAt segs m = true) ∧
      ((∃ k : Nat, (k : Int) ≤ clampIndex segs index ∧ isEmptyAt segs k = false) →
        isEmptyAt segs j.toNat = false)) ∧
    (goToSegmentIndex segs index none =
      if (walkForward segs (clampIndex segs index).toNat : Int) < (segs.length : Int) then
        goToSegmentIndex segs index (some Dir.next)
      else (walkBackwardZ segs index).map (fun j => max j 0)) ∧
    (∀ j : Int, goToSegmentIndex segs index none = some j → isEmptyAt segs j.toNat = true →
      ∀ m : Nat, m < segs.length → isEmptyAt segs m = true) := by
  have hlen0 : ¬ segs.length = 0 := fun h => hne (List.length_eq_zero.mp h)
  have hlenpos : 0 < segs.length := Nat.pos_of_ne_zero hlen0
  obtain ⟨hc0, hc1⟩ := clampIndex_bounds segs index hne
  have hi0lt : (clampIndex segs index).toNat < segs.length := by omega
  obtain ⟨hf1, hf2, hf3, hf4⟩ := walkForward_spec segs (clampIndex segs index).toNat
    (le_of_lt hi0lt)
  cases hEmp : isEmptyAt segs (clampIndex segs index).toNat with
  | false =>
      have hwf := walkForward_eq_of_not_empty segs (clampIndex segs index).toNat hi0lt hEmp
      refine ⟨⟨clampIndex segs index,
          goToSegmentIndex_eq_of_not_empty segs index _ hlen0 hEmp⟩, ?_,
        ⟨clampIndex segs index,
          goToSegmentIndex_eq_of_not_empty segs index _ hlen0 hEmp⟩, ?_, ?_, ?_⟩
      · intro j hj
        rw [goToSegmentIndex_eq_of_not_empty segs index _ hlen0 hEmp] at hj
        have hjv := Option.some.inj hj
        refine ⟨by omega, by omega, fun m hm1 hm2 => absurd hm2 (by omega), fun _ => ?_⟩
        rw [← hjv]
        exact hEmp
      · intro j hj
        rw [goToSegmentIndex_eq_of_not_empty segs index _ hlen0 hEmp] at hj
        have hjv := Option.some.inj hj
        refine ⟨by omega, by omega, fun m hm1 hm2 => absurd hm2 (by omega), fun _ => ?_⟩
        rw [← hjv]
        exact hEmp
      · rw [goToSegmentIndex_eq_of_not_empty segs index none hlen0 hEmp,
          goToSegmentIndex_eq_of_not_empty segs index (some Dir.next) hlen0 hEmp, hwf,
          if_pos (by omega : ((clampIndex segs index).toNat : Int) < (segs.length : Int))]
      · intro j hj hjE m hm
        rw [goToSegmentIndex_eq_of_not_empty segs index none hlen0 hEmp] at hj
        have hjv := Option.some.inj hj
        rw [← hjv] at hjE
        simp [hEmp] at hjE
  | true =>
      have hbz : walkBackwardZ segs (clampIndex segs index) =
          some (walkBackwardAux segs (clampIndex segs index).toNat) := by
        unfold walkBackwardZ
        rw [if_neg (by omega), if_pos (by omega)]
      obtain ⟨hbA, hbB, hbC, hbD⟩ := walkBackwardAux_spec segs (clampIndex segs index).toNat
        hi0lt
      refine ⟨⟨min ((walkForward segs (clampIndex segs index).toNat : Int))
            ((segs.length : Int) - 1),
          goToSegmentIndex_next_of_empty segs index hlen0 hEmp⟩, ?_,
        ⟨max (walkBackwardAux segs (clampIndex segs index).toNat) 0, by
          rw [goToSegmentIndex_prev_of_empty segs index hlen0 hEmp, hbz]; rfl⟩, ?_, ?_, ?_⟩
      · intro j hj
        rw [goToSegmentIndex_next_of_empty segs index hlen0 hEmp] at hj
        have hjv := Option.some.inj hj
        have hminl := min_le_left ((walkForward segs (clampIndex segs index).toNat : Int))
          ((segs.length : Int) - 1)
        have hminr := min_le_right ((walkForward segs (clampIndex segs index).toNat : Int))
          ((segs.length : Int) - 1)
        refine ⟨?_, by omega, ?_, ?_⟩
        · rw [← hjv]
          exact le_min (by omega) hc1
        · intro m hm1 hm2
          exact hf3 m (by omega) (by omega)
        · rintro ⟨k, hk1, hk2, hk3⟩
          have hjf_lt : walkForward segs (clampIndex segs index).toNat < segs.length := by
            by_contra hcon
            push_neg at hcon
            exact absurd (hf3 k (by omega) (by omega)) (by simp [hk3])
          have hJ : min ((walkForward segs (clampIndex segs index).toNat : Int))
              ((segs.length : Int) - 1) =
              (walkForward segs (clampIndex segs index).toNat : Int) :=
            min_eq_left (by omega)
          rw [← hjv, hJ,
            show ((walkForward segs (clampIndex segs index).toNat : Int)).toNat =
              walkForward segs (clampIndex segs index).toNat from by omega]
          exact hf4 hjf_lt
      · intro j hj
        rw [goToSegmentIndex_prev_of_empty segs index hlen0 hEmp, hbz] at hj
        have hjv : max (walkBackwardAux segs (clampIndex segs index).toNat) 0 = j := by
          simpa using hj
        have hmaxl := le_max_left (walkBackwardAux segs (clampIndex segs index).toNat) (0 : Int)
        have hmaxr := le_max_right (walkBackwardAux segs (clampIndex segs index).toNat) (0 : Int)
        refine ⟨by omega, ?_, ?_, ?_⟩
        · rw [← hjv]
          exact max_le (by omega) hc0
        · intro m hm1 hm2
          exact hbC m (by omega) (by omega)
        · rintro ⟨k, hk1, hk2⟩
          by_cases h0jb : 0 ≤ walkBackwardAux segs (clampIndex segs index).toNat
          · rw [← hjv, max_eq_left h0jb]
            exact hbD h0jb
          · have hjbm1 : walkBackwardAux segs (clampIndex segs index).toNat = -1 := by omega
            exact absurd (hbC k (by omega) (by omega)) (by simp [hk2])
      · rw [goToSegmentIndex_none_of_empty segs index hlen0 hEmp,
          goToSegmentIndex_next_of_empty segs index hlen0 hEmp]
      · intro j hj hjE m hm
        rw [goToSegmentIndex_none_of_empty segs index hlen0 hEmp] at hj
        by_cases hjl : (walkForward segs (clampIndex segs index).toNat : Int) <
            (segs.length : Int)
        · rw [if_pos hjl] at hj
          have hjv := Option.some.inj hj
          have hJ : min ((walkForward segs (clampIndex segs index).toNat : Int))
              ((segs.length : Int) - 1) =
              (walkForward segs (clampIndex segs index).toNat : Int) :=
            min_eq_left (by omega)
          have hfe : isEmptyAt segs (walkForward segs (clampIndex segs index).toNat) = false :=
            hf4 (by omega)
          rw [← hjv, hJ,
            show ((walkForward segs (clampIndex segs index).toNat : Int)).toNat =
              walkForward segs (clampIndex segs index).toNat from by omega] at hjE
          simp [hfe] at hjE
        · rw [if_neg hjl] at hj
          have hallfwd : ∀ m' : Nat, (clampIndex segs index).toNat ≤ m' → m' < segs.length →
              isEmptyAt segs m' = true :=
            fun m' ha hb => hf3 m' ha (by omega)
          unfold walkBackwardZ at hj
          by_cases hneg : index < 0
          · rw [if_pos hneg] at hj
            have hi00 : clampIndex segs index = 0 := by
              have h1 := min_le_left index ((segs.length : Int) - 1)
              have h2 : clampIndex segs index ≤ 0 := max_le le_rfl (by omega)
              omega
            exact hallfwd m (by omega) hm
          · rw [if_neg hneg] at hj
            by_cases hlt : index < (segs.length : Int)
            · rw [if_pos hlt] at hj
              have hjv : max (walkBackwardAux segs index.toNat) 0 = j := by simpa using hj
              have hidx : clampIndex segs index = index := by
                unfold clampIndex
                rw [min_eq_left (by omega), max_eq_right (by omega)]
              have hidxlt : index.toNat < segs.length := by omega
              obtain ⟨hbA', hbB', hbC', hbD'⟩ := walkBackwardAux_spec segs index.toNat hidxlt
              by_cases h0jb : 0 ≤ walkBackwardAux segs index.toNat
              · have hne2 := hbD' h0jb
                rw [← hjv, max_eq_left h0jb] at hjE
                simp [hne2] at hjE
              · have hjbm1 : walkBackwardAux segs index.toNat = -1 := by omega
                by_cases hmle : m ≤ index.toNat
                · exact hbC' m hmle (by omega)
                · exact hallfwd m (by omega) hm
            · rw [if_neg hlt] at hj
              simp at hj

/-- Witness for C6 on a concrete one-segment list. -/
theorem goToSegment_skip_target_avoidance_witness :
    (["a"] : List String) ≠ [] ∧
    (∃ j : Int, goToSegmentIndex ["a"] 0 (some Dir.next) = some j) :=
  ⟨by decide, (goToSegment_skip_target_avoidance ["a"] 0 (by decide)).1⟩

/-- Counterexample for claim C9 as stated: its "no error is raised"
conjunct fails.  Under the claim's own premises (degenerate geometry
`maxOffset = 0`, offset 0) the call `goToSegment(5)` with no direction on
the nonempty all-skip list `[" "]` clamps to index 0, finds it empty, runs
the forward walk off the end, and then starts the backward walk at the
original unclamped index 5 — evaluating `segments[5].trim()` on
`undefined`, which throws a `TypeError` in JS.  In the embedding that fault
is `walkBackwardZ [" "] 5 = none`, and the direction-less landing
computation reduces to exactly that faulting fallback. -/
theorem degenerate_goToSegment_fallback_raises :
    maxOffset ⟨0, false, 5, 0, 0⟩ = 0 ∧
    (⟨0, false, 5, 0, 0⟩ : ScrollState).offset = 0 ∧
    ([" "] : List String) ≠ [] ∧
    goToSegmentIndex [" "] 5 none = (walkBackwardZ [" "] 5).map (fun j => max j 0) ∧
    walkBackwardZ [" "] 5 = none ∧
    goToSegmentIndex [" "] 5 none = none := by
  refine ⟨?_, rfl, by decide, by decide, by decide, by decide⟩
  norm_num [maxOffset, max_def]
